import Mathlib

set_option maxRecDepth 65536

/- Verification development for the TRR trajectory reader (src/trr.py):
   a shallow embedding of the frame-header decoder, the frame indexer,
   the block-geometry resolver and the selective block reader, together
   with theorems settling the specified properties. -/

/-- A binary file or stream is modelled as a list of bytes. -/
abbrev ByteStream := List Nat

/-- Big-endian 32-bit word assembled from four bytes. -/
def be32 (b0 b1 b2 b3 : Nat) : Nat := ((b0 * 256 + b1) * 256 + b2) * 256 + b3

/-- The big-endian 32-bit word starting at byte offset i of the stream
    (missing bytes read as 0; all uses are guarded by length checks). -/
def be32At (s : ByteStream) (i : Nat) : Nat :=
  be32 (s.getD i 0) (s.getD (i+1) 0) (s.getD (i+2) 0) (s.getD (i+3) 0)

/-- Signed (two-complement) reading of a 32-bit word, as produced by
    struct.unpack with big-endian format l. -/
def toSigned32 (w : Nat) : Int :=
  if w < 2 ^ 31 then (w : Int) else (w : Int) - 2 ^ 32

/-- Unpack of n consecutive big-endian signed 32-bit integers starting
    at byte offset off, as in unpack of 13 l fields at src/trr.py:48. -/
def parseInts (s : ByteStream) (n off : Nat) : List Int :=
  (List.range n).map fun j => toSigned32 (be32At s (off + 4 * j))

/-- Result of parsing one frame header, mirroring the attributes set by
    TRRHeader.__init__ (src/trr.py:21-73).  Floating fields (time,
    lambda) are kept as their raw bytes, since no claim computes with
    their numeric value. -/
structure TRRHeader where
  tag : List Nat
  rawheader : List Int
  step : Int
  double : Bool
  positions : Int
  velocities : Int
  forces : Int
  natoms : Int
  timeRaw : List Nat
  fsize : Int
  bsize : Int
  hsize : Nat

/-- Frame-header decoder, translated from TRRHeader.__init__
    (src/trr.py:46-73).  It reads a fixed 76-byte region (tag plus 13
    big-endian signed 32-bit integers at offsets 24..75), detects the
    precision by integer division (Python floor division; division by a
    zero atom count raises, modelled as an error), then reads 16 more
    bytes (double) or 8 more bytes (single) for time and lambda.  On
    success it returns the header and the unconsumed remainder of the
    stream. -/
def parseTRRHeader (s : ByteStream) : Except String (TRRHeader × ByteStream) :=
  if s.length < 76 then
    .error "IoError: truncated frame header"
  else
    let raw := parseInts s 13 24
    let n := raw.getD 10 0
    if n = 0 then
      .error "IntegrityError: ZeroDivisionError in precision detection"
    else
      let mx := max (raw.getD 7 0) (max (raw.getD 8 0) (raw.getD 9 0))
      let dbl := (mx.fdiv n).fdiv 3 == 8
      let need := if dbl then 16 else 8
      if s.length < 76 + need then
        .error "IoError: truncated time fields"
      else
        .ok ({ tag := s.take 8
             , rawheader := raw
             , step := raw.getD 11 0
             , double := dbl
             , positions := raw.getD 7 0
             , velocities := raw.getD 8 0
             , forces := raw.getD 9 0
             , natoms := n
             , timeRaw := (s.drop 76).take need
             , fsize := (raw.take 10).sum
             , bsize := mx
             , hsize := if dbl then 164 else 120 }, s.drop (76 + need))

/-- Position advance applied after each frame during indexing:
    fsize + hsize - 36 (src/trr.py:117). -/
def frameAdvance (h : TRRHeader) : Int := h.fsize + (h.hsize : Int) - 36

/-- The indexing loop of TRR.__init__ (src/trr.py:112-117): starting at
    position 0, while the position is below the file size, record the
    position, decode a header there, and advance by frameAdvance.  The
    fuel argument bounds the number of iterations; with fuel
    file.length + 1 it never runs out on files whose frames have
    positive advance (the Python loop would not terminate otherwise). -/
def indexLoop (file : ByteStream) : Nat → Int → Except String (List (Int × TRRHeader))
  | 0, _ => .error "IntegrityError: frame offsets not advancing"
  | fuel + 1, pos =>
    if pos < (file.length : Int) then
      if pos < 0 then .error "IoError: negative seek"
      else
        match parseTRRHeader (file.drop pos.toNat) with
        | .error e => .error e
        | .ok (hdr, _) =>
          match indexLoop file fuel (pos + frameAdvance hdr) with
          | .error e => .error e
          | .ok rest => .ok ((pos, hdr) :: rest)
    else .ok []

/-- Atom selections accepted by TRR.__init__ (src/trr.py:139-155):
    an integer, a slice (start and stop; the source consults only the
    stop bound), a numpy boolean array, a numpy integer array, and a
    Python list or tuple of integers. -/
inductive Selection where
  | int (k : Int)
  | slice (start stop : Option Int)
  | boolArray (mask : List Bool)
  | intArray (xs : List Int)
  | list (xs : List Int)

/-- Maximum of a nonempty list, as the Python builtin max. -/
def listMax : List Int → Option Int
  | [] => none
  | x :: xs => some (xs.foldl max x)

/-- Indices of the true entries of a boolean mask, as np.where. -/
def trueIndices (mask : List Bool) : List Nat :=
  ((List.range mask.length).zip mask).filterMap fun p =>
    if p.2 then some p.1 else none

/-- Indices of the nonzero entries of an integer list, as np.where. -/
def nonzeroIndices (xs : List Int) : List Nat :=
  ((List.range xs.length).zip xs).filterMap fun p =>
    if p.2 ≠ 0 then some p.1 else none

/-- Resolution of the maximum atom index to read, translated from
    src/trr.py:137-155.  An integer selection is clamped by the atom
    count; a slice contributes its stop bound clamped by the atom
    count (or the atom count if absent); a boolean array yields the
    position of its last true entry (an error if there is none, as the
    source indexes the empty np.where result); an integer array yields
    its maximum plus one; a list or tuple is treated as an index list
    when its computed maximum selmax = max + 1 exceeds 2, and as a
    boolean mask otherwise. -/
def resolveMaxIdx (natoms : Int) (sel : Selection) : Except String Int :=
  match sel with
  | .int k => .ok (min k natoms)
  | .slice _ stop =>
    match stop with
    | none => .ok natoms
    | some st => .ok (min st natoms)
  | .boolArray mask =>
    match (trueIndices mask).getLast? with
    | none => .error "IndexError: empty where result"
    | some i => .ok (i : Int)
  | .intArray xs =>
    match listMax xs with
    | none => .error "ValueError: max of empty sequence"
    | some m => .ok (m + 1)
  | .list xs =>
    match listMax xs with
    | none => .error "ValueError: max of empty sequence"
    | some m =>
      let selmax := m + 1
      if selmax > 2 then .ok selmax
      else
        match (nonzeroIndices xs).getLast? with
        | none => .error "IndexError: empty where result"
        | some i => .ok (i : Int)

/-- The source replaces an integer selection k by slice(0, k)
    (src/trr.py:141); other selections are stored unchanged. -/
def normalizeSel (sel : Selection) : Selection :=
  match sel with
  | .int k => .slice (some 0) (some k)
  | s => s

/-- Size field of one block type in a header: positions, velocities or
    forces (the rows of the transposed sizes array, src/trr.py:123-126). -/
def blockSizeField (k : Fin 3) (h : TRRHeader) : Int :=
  match k with
  | 0 => h.positions
  | 1 => h.velocities
  | 2 => h.forces

/-- Row k of the per-frame block-size array (src/trr.py:123-126). -/
def sizesOf (headers : List TRRHeader) (k : Fin 3) : List Int :=
  headers.map (blockSizeField k)

/-- Row k of the per-frame block-start array, translated componentwise
    from the vectorized statements of src/trr.py:130-132: every row
    starts from the frame offsets shifted by the first header's hsize;
    rows 1 and 2 then add the per-frame sizes of block 0, and row 2
    additionally adds the per-frame sizes of block 1. -/
def startsOf (frames : List Int) (headers : List TRRHeader) (hsz : Nat) (k : Fin 3) : List Int :=
  let base := frames.map fun p => p + (hsz : Int)
  match k with
  | 0 => base
  | 1 => List.zipWith (fun a b => a + b) base (sizesOf headers 0)
  | 2 => List.zipWith (fun a b => a + b)
      (List.zipWith (fun a b => a + b) base (sizesOf headers 0)) (sizesOf headers 1)

/-- State of an open trajectory after TRR.__init__ (src/trr.py:104-155). -/
structure TRR where
  frames : List Int
  headers : List TRRHeader
  times : List (List Nat)
  sizes : Fin 3 → List Int
  blockHave : Fin 3 → List Bool
  starts : Fin 3 → List Int
  natoms : Int
  selection : Selection
  maxidx : Int

/-- Constructor, translated from TRR.__init__ (src/trr.py:104-155).
    It indexes every frame, then resolves the block geometry from the
    collected headers; on a file with no frames the access to the first
    header (headers[0].hsize, src/trr.py:130) fails. -/
def mkTRR (file : ByteStream) (sel : Selection) : Except String TRR :=
  match indexLoop file (file.length + 1) 0 with
  | .error e => .error e
  | .ok idx =>
    match idx.map Prod.snd with
    | [] => .error "IndexError: list index out of range"
    | h0 :: _ =>
      match resolveMaxIdx h0.natoms sel with
      | .error e => .error e
      | .ok m =>
        .ok { frames := idx.map Prod.fst
            , headers := idx.map Prod.snd
            , times := (idx.map Prod.snd).map TRRHeader.timeRaw
            , sizes := sizesOf (idx.map Prod.snd)
            , blockHave := fun k => (sizesOf (idx.map Prod.snd) k).map fun b => b != 0
            , starts := startsOf (idx.map Prod.fst) (idx.map Prod.snd) h0.hsize
            , natoms := h0.natoms
            , selection := normalizeSel sel
            , maxidx := m }

/-- Header size of the first frame of an indexed trajectory. -/
def hsize0 (t : TRR) : Int :=
  match t.headers.head? with
  | none => 0
  | some h => (h.hsize : Int)

/-- One atom row of a block: three decoded 32-bit words. -/
abbrev Word3 := Nat × Nat × Nat

/-- A materialized block: one list of atom rows per qualifying frame. -/
abbrev Block := List (List Word3)

/-- Decode of one frame's block payload as performed by np.fromfile
    with dtype big-endian f4 and count 3 * maxidx followed by a
    reshape into rows of three (src/trr.py:170): m consecutive atom
    rows, each made of three 4-byte big-endian words, starting at byte
    offset pos.  The byte stride is 4 per value and 12 per atom row. -/
def frameWords (file : ByteStream) (pos m : Nat) : List Word3 :=
  (List.range m).map fun i =>
    (be32At file (pos + 12 * i), be32At file (pos + 12 * i + 4),
     be32At file (pos + 12 * i + 8))

/-- The block starts of the frames that carry block k:
    the numpy indexing starts[k, have[k]] (src/trr.py:168). -/
def qualifyingStarts (t : TRR) (k : Fin 3) : List Int :=
  ((t.starts k).zip (t.blockHave k)).filterMap fun pb =>
    if pb.2 then some pb.1 else none

/-- Number of frames read by one block scan, hence the number of
    np.fromfile calls it performs. -/
def qualifyingCount (t : TRR) (k : Fin 3) : Nat := (qualifyingStarts t k).length

/-- Sequential effectful map: the first error aborts, as in the Python
    per-frame loop. -/
def exceptMapM {α β : Type} (f : α → Except String β) : List α → Except String (List β)
  | [] => .ok []
  | x :: xs =>
    match f x with
    | .error e => .error e
    | .ok y =>
      match exceptMapM f xs with
      | .error e => .error e
      | .ok ys => .ok (y :: ys)

/-- The per-frame reads of TRR._read before the final selection is
    applied (src/trr.py:167-170): for each qualifying frame, seek to
    its block start and decode 3 * maxidx big-endian 32-bit values.  A
    negative position, a negative maxidx, or too few remaining bytes
    for a nonempty read fails, as the numpy calls would. -/
def readBlockRaw (file : ByteStream) (t : TRR) (k : Fin 3) : Except String Block :=
  if t.maxidx < 0 then .error "ValueError: negative dimensions are not allowed"
  else
    exceptMapM
      (fun pos =>
        if 0 ≤ pos ∧ (t.maxidx.toNat = 0 ∨ pos.toNat + 12 * t.maxidx.toNat ≤ file.length)
        then .ok (frameWords file pos.toNat t.maxidx.toNat)
        else .error "ValueError: could not read a full block")
      (qualifyingStarts t k)

/-- The unchecked form of the per-frame reads: one decoded row of
    3 * maxidx values per qualifying frame. -/
def rawRowsOf (file : ByteStream) (t : TRR) (k : Fin 3) : Block :=
  (qualifyingStarts t k).map fun pos => frameWords file pos.toNat t.maxidx.toNat

/-- Clipping of one slice bound to a row length, as Python slicing. -/
def pyClipIndex (v : Int) (len : Nat) : Nat :=
  if v < 0 then (max (v + (len : Int)) 0).toNat else min v.toNat len

/-- Python slice row[start:stop] with unit step. -/
def pySliceList {α : Type} (start stop : Option Int) (row : List α) : List α :=
  let s := match start with | none => 0 | some v => pyClipIndex v row.length
  let e := match stop with | none => row.length | some v => pyClipIndex v row.length
  (row.drop s).take (e - s)

/-- Numpy fancy indexing of one element, with negative wrap-around and
    an IndexError outside the axis bounds. -/
def pyFancyGet {α : Type} [Inhabited α] (row : List α) (i : Int) : Except String α :=
  if 0 ≤ i then
    if i < (row.length : Int) then .ok (row.getD i.toNat default)
    else .error "IndexError: index out of bounds"
  else
    if 0 ≤ i + (row.length : Int) then .ok (row.getD (i + (row.length : Int)).toNat default)
    else .error "IndexError: index out of bounds"

/-- Boolean-mask selection along one axis. -/
def maskSelect {α : Type} (mask : List Bool) (row : List α) : List α :=
  (mask.zip row).filterMap fun p => if p.1 then some p.2 else none

/-- Application of the stored selection along the atom axis of one
    frame row: the indexing X[:, self.selection] of src/trr.py:171.
    A slice selects a contiguous range; a boolean array must match the
    axis length; integer arrays and lists are numpy fancy indexing.
    An integer selection never reaches this point, because the
    constructor replaces it by a slice (src/trr.py:141). -/
def applySelAxis (sel : Selection) (row : List Word3) : Except String (List Word3) :=
  match sel with
  | .int _ => .error "unreachable: integer selections are normalized to slices"
  | .slice a b => .ok (pySliceList a b row)
  | .boolArray mask =>
    if mask.length = row.length then .ok (maskSelect mask row)
    else .error "IndexError: boolean index did not match axis length"
  | .intArray xs => exceptMapM (pyFancyGet row) xs
  | .list xs => exceptMapM (pyFancyGet row) xs

/-- One block read, translated from TRR._read (src/trr.py:157-171):
    the per-frame decode followed by the selection along the atom axis. -/
def readBlock (file : ByteStream) (t : TRR) (k : Fin 3) : Except String Block :=
  match readBlockRaw file t k with
  | .error e => .error e
  | .ok rows => exceptMapM (applySelAxis t.selection) rows

/-- Mutable state of an open trajectory: the file, the parsed index,
    the three lazily populated caches (the attributes _positions,
    _velocities, _forces of src/trr.py:181-207), and a count of the
    np.fromfile calls performed so far. -/
structure TRRRun where
  file : ByteStream
  t : TRR
  posCache : Option Block := none
  velCache : Option Block := none
  frcCache : Option Block := none
  readCount : Nat := 0

/-- The positions property (src/trr.py:173-183): on a cache miss it
    reads block 0, stores the result and counts the file reads; on a
    hit it returns the memoized block with the state unchanged. -/
def positionsAcc (s : TRRRun) : Except String (Block × TRRRun) :=
  match s.posCache with
  | some v => .ok (v, s)
  | none =>
    match readBlock s.file s.t 0 with
    | .error e => .error e
    | .ok v =>
      .ok (v, { s with posCache := some v,
                       readCount := s.readCount + qualifyingCount s.t 0 })

/-- The velocities property (src/trr.py:185-195). -/
def velocitiesAcc (s : TRRRun) : Except String (Block × TRRRun) :=
  match s.velCache with
  | some v => .ok (v, s)
  | none =>
    match readBlock s.file s.t 1 with
    | .error e => .error e
    | .ok v =>
      .ok (v, { s with velCache := some v,
                       readCount := s.readCount + qualifyingCount s.t 1 })

/-- The forces property (src/trr.py:197-207). -/
def forcesAcc (s : TRRRun) : Except String (Block × TRRRun) :=
  match s.frcCache with
  | some v => .ok (v, s)
  | none =>
    match readBlock s.file s.t 2 with
    | .error e => .error e
    | .ok v =>
      .ok (v, { s with frcCache := some v,
                       readCount := s.readCount + qualifyingCount s.t 2 })

/-- Dispatch over the three block accessors. -/
def accessor (k : Fin 3) : TRRRun → Except String (Block × TRRRun) :=
  match k with
  | 0 => positionsAcc
  | 1 => velocitiesAcc
  | 2 => forcesAcc

/-- Four big-endian bytes of a 32-bit value. -/
def i32be (n : Nat) : List Nat :=
  [n / 16777216 % 256, n / 65536 % 256, n / 256 % 256, n % 256]

/-- Shared 24-byte magic/tag/string region of the example files. -/
def exTag : List Nat := [0, 0, 7, 201, 0, 0, 0, 13] ++ List.replicate 16 0

/-- The 52 bytes holding the 13 header integers, given the box, X, V,
    F sizes, the atom count and the step. -/
def exInts (box x v f natoms step : Nat) : List Nat :=
  i32be 0 ++ i32be 0 ++ i32be box ++ i32be 0 ++ i32be 0 ++ i32be 0 ++ i32be 0 ++
  i32be x ++ i32be v ++ i32be f ++ i32be natoms ++ i32be step ++ i32be 0

/-- Example single-precision file: one frame, five atoms, positions
    only (box 36, X 60, 180 bytes in total). -/
def exFile5 : ByteStream :=
  exTag ++ exInts 36 60 0 0 5 7 ++ List.replicate 8 0 ++
  List.replicate 36 0 ++ (List.range 60).map (fun i => i % 256)

/-- Example single-precision file with two heterogeneous frames:
    frame 0 has two atoms (X 24, V 24), frame 1 has four atoms
    (X 48, V 24); 168 + 192 = 360 bytes. -/
def exFile2 : ByteStream :=
  (exTag ++ exInts 36 24 24 0 2 0 ++ List.replicate 8 0 ++ List.replicate 84 0) ++
  (exTag ++ exInts 36 48 24 0 4 1 ++ List.replicate 8 0 ++ List.replicate 108 0)

/-- Example double-precision file: one frame, one atom, positions only
    (box 72, X 24, 188 bytes in total). -/
def exFileD : ByteStream :=
  exTag ++ exInts 72 24 0 0 1 0 ++ List.replicate 16 0 ++
  List.replicate 72 0 ++ List.replicate 24 3

/-- The default selection slice(None) of src/trr.py:86. -/
def defaultSel : Selection := Selection.slice none none

/-- The trajectory indexed from exFile5 with the default selection. -/
def exT5 : TRR := ((mkTRR exFile5 defaultSel).toOption).get (by decide)

/-- The trajectory indexed from exFile2 with the default selection. -/
def exT2 : TRR := ((mkTRR exFile2 defaultSel).toOption).get (by decide)

/-- The trajectory indexed from exFileD with the default selection. -/
def exTD : TRR := ((mkTRR exFileD defaultSel).toOption).get (by decide)

/-- The trajectory indexed from exFile5 with the integer selection 2. -/
def exT5int2 : TRR := ((mkTRR exFile5 (Selection.int 2)).toOption).get (by decide)

/-- The positions block read from exT5int2. -/
def exRows5 : Block := ((readBlock exFile5 exT5int2 0).toOption).get (by decide)

/-- The frame index of exFile2. -/
def exIdx2 : List (Int × TRRHeader) :=
  ((indexLoop exFile2 (exFile2.length + 1) 0).toOption).get (by decide)

/-- The raw positions rows read from the double-precision exTD. -/
def exRowsD : Block := ((readBlockRaw exFileD exTD 0).toOption).get (by decide)

/-- A run state over exFile5 with cold caches. -/
def exRun5 : TRRRun := { file := exFile5, t := exT5 }

/-- The result and state of the first positions access on exRun5. -/
def exPos1 : Block × TRRRun := ((positionsAcc exRun5).toOption).get (by decide)

/-- Recurrence between consecutive index entries: the later offset is
    the earlier one plus its frame advance. -/
def offsetRecur (a b : Int × TRRHeader) : Prop := b.1 = a.1 + frameAdvance a.2

/-- Strict order on offsets. -/
def intLt (a b : Int) : Prop := a < b

/-- Boolean check that one frame row has k atoms. -/
def rowLenIs (k : Int) (r : List Word3) : Bool := r.length == k.toNat

/-- The parse result of the single-precision example file. -/
def exParse5 : TRRHeader × ByteStream := ((parseTRRHeader exFile5).toOption).get (by decide)

/-- A successful sequential effectful map over a function that can
    only return g x at x equals the pure map of g. -/
theorem exceptMapM_ok_map {α β : Type} (f : α → Except String β) (g : α → β)
    (hf : ∀ x y, f x = .ok y → y = g x) :
    ∀ (l : List α) (ys : List β), exceptMapM f l = .ok ys → ys = l.map g := by
  intro l
  induction l with
  | nil =>
    intro ys h
    simp only [exceptMapM, Except.ok.injEq] at h
    simp [h.symm]
  | cons x xs ih =>
    intro ys h
    cases hx : f x with
    | error e => simp [exceptMapM, hx] at h
    | ok y =>
      cases hrec : exceptMapM f xs with
      | error e => simp [exceptMapM, hx, hrec] at h
      | ok ys2 =>
        simp only [exceptMapM, hx, hrec, Except.ok.injEq] at h
        subst h
        rw [List.map_cons, hf x y hx, ih ys2 hrec]

/-- A decoded frame row always holds exactly m atom rows. -/
theorem frameWords_length (file : ByteStream) (pos m : Nat) :
    (frameWords file pos m).length = m := by
  simp [frameWords]

/-- Slicing a row of length k.toNat with slice(0, k) keeps all of it. -/
theorem pySliceList_zero_stop_length {α : Type} (k : Int) (hk : 0 ≤ k) (row : List α)
    (hrow : row.length = k.toNat) :
    (pySliceList (some 0) (some k) row).length = k.toNat := by
  simp [pySliceList, pyClipIndex, hrow, not_lt.mpr hk]

/-- getD through a map shifting every entry by a constant. -/
theorem getD_map_shift (hsz : Int) :
    ∀ (l : List Int) (i : Nat), i < l.length →
      (l.map fun p => p + hsz).getD i 0 = l.getD i 0 + hsz := by
  intro l
  induction l with
  | nil => intro i hi; simp at hi
  | cons x xs ih =>
    intro i hi
    cases i with
    | zero => simp
    | succ j =>
      simp only [List.map_cons, List.getD_cons_succ]
      exact ih j (by simpa using hi)

/-- getD through a pointwise zipWith sum. -/
theorem getD_zipWith_add :
    ∀ (a b : List Int) (i : Nat), i < a.length → i < b.length →
      (List.zipWith (fun x y => x + y) a b).getD i 0 = a.getD i 0 + b.getD i 0 := by
  intro a
  induction a with
  | nil => intro b i hi; simp at hi
  | cons x xs ih =>
    intro b i hia hib
    cases b with
    | nil => simp at hib
    | cons y ys =>
      cases i with
      | zero => simp
      | succ j =>
        simp only [List.zipWith_cons_cons, List.getD_cons_succ]
        exact ih ys j (by simpa using hia) (by simpa using hib)

/-- Inversion of a successful construction: the constructor indexed
    the file, found at least one header, and filled every field from
    the index, the first header and the resolved selection. -/
theorem mkTRR_fields (file : ByteStream) (sel : Selection) (t : TRR)
    (h : mkTRR file sel = .ok t) :
    ∃ (idx : List (Int × TRRHeader)) (h0 : TRRHeader) (hs : List TRRHeader),
      indexLoop file (file.length + 1) 0 = .ok idx ∧
      idx.map Prod.snd = h0 :: hs ∧
      t.frames = idx.map Prod.fst ∧
      t.headers = idx.map Prod.snd ∧
      t.sizes = sizesOf (idx.map Prod.snd) ∧
      t.starts = startsOf (idx.map Prod.fst) (idx.map Prod.snd) h0.hsize ∧
      t.blockHave = (fun k => (sizesOf (idx.map Prod.snd) k).map fun b => b != 0) ∧
      t.natoms = h0.natoms ∧
      t.selection = normalizeSel sel ∧
      resolveMaxIdx h0.natoms sel = .ok t.maxidx := by
  unfold mkTRR at h
  split at h
  · exact absurd h (by simp)
  next idx hidx =>
    split at h
    · exact absurd h (by simp)
    next h0 hs hcons =>
      split at h
      · exact absurd h (by simp)
      next m hres =>
        rw [Except.ok.injEq] at h
        refine ⟨idx, h0, hs, hidx, hcons, ?_, ?_, ?_, ?_, ?_, ?_, ?_, ?_⟩ <;>
          simp [← h, hres, hcons]

/-- Soundness of the indexing loop: on success starting at pos, the
    first recorded offset is pos itself, consecutive entries obey the
    frame-advance recurrence, every recorded offset lies strictly
    below the file size, a start position inside the file records at
    least one frame, and a start position at or past the end records
    none. -/
theorem indexLoop_sound (file : ByteStream) :
    ∀ (fuel : Nat) (pos : Int) (idx : List (Int × TRRHeader)),
      indexLoop file fuel pos = .ok idx →
      ((idx.map Prod.fst).head?.getD pos = pos) ∧
      List.Chain' offsetRecur idx ∧
      (∀ e ∈ idx, e.1 < (file.length : Int)) ∧
      (pos < (file.length : Int) → idx ≠ []) ∧
      (¬ pos < (file.length : Int) → idx = []) := by
  intro fuel
  induction fuel with
  | zero =>
    intro pos idx h
    simp [indexLoop] at h
  | succ n ih =>
    intro pos idx h
    by_cases hlt : pos < (file.length : Int)
    · by_cases hneg : pos < 0
      · simp [indexLoop, hlt, hneg] at h
      · cases hp : parseTRRHeader (file.drop pos.toNat) with
        | error e => simp [indexLoop, hlt, hneg, hp] at h
        | ok ph =>
          obtain ⟨hdr, tl0⟩ := ph
          cases hrec : indexLoop file n (pos + frameAdvance hdr) with
          | error e => simp [indexLoop, hlt, hneg, hp, hrec] at h
          | ok rest =>
            have hstep : indexLoop file (n + 1) pos = .ok ((pos, hdr) :: rest) := by
              simp only [indexLoop, if_pos hlt, if_neg hneg, hp, hrec]
            rw [h] at hstep
            rw [Except.ok.injEq] at hstep
            subst hstep
            obtain ⟨ih1, ih2, ih3, _, ih5⟩ := ih (pos + frameAdvance hdr) rest hrec
            refine ⟨by simp, ?_, ?_, by simp, fun hc => absurd hlt hc⟩
            · cases rest with
              | nil => simp
              | cons b tl =>
                rw [List.chain'_cons]
                refine ⟨?_, ih2⟩
                have hb : b.1 = pos + frameAdvance hdr := by
                  simpa using ih1
                exact hb
            · intro e he
              rcases List.mem_cons.mp he with rfl | hmem
              · exact hlt
              · exact ih3 e hmem
    · have : indexLoop file (n + 1) pos = .ok [] := by
        simp [indexLoop, hlt]
      rw [h] at this
      rw [Except.ok.injEq] at this
      subst this
      exact ⟨by simp, by simp, by simp, fun hc => absurd hc hlt, fun _ => rfl⟩

/-- C1 counterexample: on a file containing zero frames (the empty
    payload), Trajectory construction does not succeed: it fails with
    the index error raised by the headers[0] access during
    block-geometry resolution (src/trr.py:130). -/
theorem zero_frame_construction_fails :
    mkTRR ([] : ByteStream) defaultSel = .error "IndexError: list index out of range" := rfl

/-- C1 (amended): for the zero-frame file the indexing loop itself
    produces an empty frame list, but construction then fails with an
    index error when the geometry resolution reads the first header,
    for every selection; no block read is reachable on such a file. -/
theorem zero_frame_indexes_empty_then_fails (sel : Selection) :
    indexLoop ([] : ByteStream) 1 0 = .ok [] ∧
    mkTRR ([] : ByteStream) sel = .error "IndexError: list index out of range" :=
  ⟨rfl, rfl⟩

/-- C2 counterexample: on the single-precision example file the
    decoder consumes 84 bytes while header_size is 120, so it does not
    consume exactly header_size bytes. -/
theorem header_consumption_counterexample :
    (parseTRRHeader exFile5).map (fun p => (exFile5.length - p.2.length, p.1.hsize)) =
      .ok (84, 120) ∧ (84 : Nat) ≠ 120 :=
  ⟨rfl, by decide⟩

/-- C2 (amended): the decoder consumes exactly 84 bytes from the
    stream when it detects single precision and 92 bytes when it
    detects double precision, that is header_size minus the box bytes
    it never reads (36 single, 72 double); the header_size attribute
    itself is 120 for single and 164 for double precision. -/
theorem header_consumption (s : ByteStream) (hdr : TRRHeader) (rest : ByteStream)
    (hp : parseTRRHeader s = .ok (hdr, rest)) :
    s.length - rest.length = (if hdr.double then 92 else 84) ∧
    hdr.hsize = (if hdr.double then 164 else 120) ∧
    s.length - rest.length = hdr.hsize - (if hdr.double then 72 else 36) := by
  simp only [parseTRRHeader] at hp
  split at hp
  · exact absurd hp (by simp)
  next hlen =>
    split at hp
    · exact absurd hp (by simp)
    next hn =>
      split at hp
      next hdbl =>
        split at hp
        · exact absurd hp (by simp)
        next hlen2 =>
          rw [Except.ok.injEq, Prod.mk.injEq] at hp
          obtain ⟨hhdr, hrest⟩ := hp
          subst hhdr
          subst hrest
          simp only [List.length_drop]
          simp only [List.getD_eq_getElem?_getD] at hdbl
          refine ⟨?_, ?_, ?_⟩ <;> simp [hdbl] <;> omega
      next hdbl =>
        split at hp
        · exact absurd hp (by simp)
        next hlen2 =>
          rw [Except.ok.injEq, Prod.mk.injEq] at hp
          obtain ⟨hhdr, hrest⟩ := hp
          subst hhdr
          subst hrest
          simp only [List.length_drop]
          simp only [List.getD_eq_getElem?_getD] at hdbl
          refine ⟨?_, ?_, ?_⟩ <;> simp [hdbl] <;> omega

/-- C2 witness: the amended consumption facts at the parse of the
    single-precision example file. -/
theorem header_consumption_witness :
    exFile5.length - exParse5.2.length = (if exParse5.1.double then 92 else 84) ∧
    exParse5.1.hsize = (if exParse5.1.double then 164 else 120) ∧
    exFile5.length - exParse5.2.length = exParse5.1.hsize - (if exParse5.1.double then 72 else 36) :=
  header_consumption exFile5 exParse5.1 exParse5.2 rfl

/-- C5: a frame header that declares an atom count of zero makes the
    precision detection divide by zero, so the decoder fails with the
    IntegrityError instead of silently defaulting to a precision. -/
theorem zero_atoms_integrity_error (s : ByteStream)
    (hlen : ¬ s.length < 76)
    (hz : (parseInts s 13 24).getD 10 0 = 0) :
    parseTRRHeader s =
      .error "IntegrityError: ZeroDivisionError in precision detection" := by
  have hz2 : (parseInts s 13 24)[10]?.getD 0 = (0 : Int) := by
    rw [← List.getD_eq_getElem?_getD]
    exact hz
  simp [parseTRRHeader, hlen, hz2]

/-- C5 witness: the all-zero 76-byte header declares zero atoms and
    the decoder fails on it with the IntegrityError. -/
theorem zero_atoms_integrity_error_witness :
    parseTRRHeader (List.replicate 76 0) =
      .error "IntegrityError: ZeroDivisionError in precision detection" :=
  zero_atoms_integrity_error (List.replicate 76 0) (by decide) (by decide)

/-- C7 counterexample: on the five-atom example file, the out-of-range
    index list [10] does not make construction fail with any error:
    the trajectory is built, with maxidx 11 exceeding the atom count 5. -/
theorem no_selection_error_counterexample :
    (mkTRR exFile5 (Selection.list [10])).map (fun t => (t.natoms, t.maxidx)) =
      .ok (5, 11) := rfl

/-- C7 (amended): construction performs no bounds check of the
    selection against the atom count: resolving a list, integer-array
    or boolean-array selection is entirely independent of natoms, so
    an out-of-bounds selection produces no error at construction and
    no SelectionError exists in the reader. -/
theorem selection_resolution_ignores_natoms (n n2 : Int) (xs : List Int) (mask : List Bool) :
    resolveMaxIdx n (Selection.list xs) = resolveMaxIdx n2 (Selection.list xs) ∧
    resolveMaxIdx n (Selection.intArray xs) = resolveMaxIdx n2 (Selection.intArray xs) ∧
    resolveMaxIdx n (Selection.boolArray mask) = resolveMaxIdx n2 (Selection.boolArray mask) :=
  ⟨rfl, rfl, rfl⟩

/-- C9: for a list or tuple selection the resolution branches on the
    computed maximum selmax = max(list) + 1 (src/trr.py:151-155):
    when selmax exceeds 2 the list is an index list and maxidx is
    selmax; otherwise the list is treated as a boolean mask and maxidx
    is the position of its last true (nonzero) entry. -/
theorem list_selection_heuristic (natoms : Int) (xs : List Int) (m : Int) (i : Nat)
    (hm : listMax xs = some m) :
    (m + 1 > 2 → resolveMaxIdx natoms (Selection.list xs) = .ok (m + 1)) ∧
    (¬ m + 1 > 2 → (nonzeroIndices xs).getLast? = some i →
      resolveMaxIdx natoms (Selection.list xs) = .ok (i : Int)) := by
  constructor
  · intro hgt
    simp [resolveMaxIdx, hm, hgt]
  · intro hle hlast
    simp [resolveMaxIdx, hm, hle, hlast]

/-- C9 witness: the index-list branch on [0, 3] (selmax 4 exceeds 2,
    maxidx 4) and the mask branch on [1, 0] (selmax 2, maxidx is the
    position 0 of the last nonzero entry). -/
theorem list_selection_heuristic_witness :
    resolveMaxIdx 5 (Selection.list [0, 3]) = .ok 4 ∧
    resolveMaxIdx 5 (Selection.list [1, 0]) = .ok ((0 : Nat) : Int) :=
  ⟨(list_selection_heuristic 5 [0, 3] 3 0 rfl).1 (by decide),
   (list_selection_heuristic 5 [1, 0] 1 0 rfl).2 (by decide) rfl⟩

/-- C3: on a successfully indexed well-formed file (each indexed frame
    has positive advance), the first recorded offset is byte 0, each
    subsequent offset equals the previous plus that frame's
    fsize + hsize - 36 (offsetRecur), every recorded offset lies
    strictly below the file size (the loop stops as soon as the
    position reaches or exceeds it), a nonempty file records at least
    one frame and an empty one records none (so the index length is
    the number of frames present before EOF), and the recorded offsets
    are strictly increasing. -/
theorem indexer_offsets (file : ByteStream) (idx : List (Int × TRRHeader))
    (h : indexLoop file (file.length + 1) 0 = .ok idx)
    (hadv : ∀ e ∈ idx, 0 < frameAdvance e.2) :
    ((idx.map Prod.fst).head?.getD 0 = 0) ∧
    List.Chain' offsetRecur idx ∧
    (∀ e ∈ idx, e.1 < (file.length : Int)) ∧
    (0 < file.length → idx ≠ []) ∧
    (file.length = 0 → idx = []) ∧
    List.Chain' intLt (idx.map Prod.fst) := by
  obtain ⟨h1, h2, h3, h4, h5⟩ := indexLoop_sound file (file.length + 1) 0 idx h
  refine ⟨h1, h2, h3, ?_, ?_, ?_⟩
  · intro hpos
    exact h4 (by exact_mod_cast hpos)
  · intro hz
    apply h5
    simp [hz]
  · rw [List.chain'_map]
    rw [List.chain'_iff_get] at h2 ⊢
    intro i hi
    have hrec := h2 i hi
    have hmem : idx.get ⟨i, by omega⟩ ∈ idx := List.get_mem idx _ _
    have hpos := hadv _ hmem
    unfold offsetRecur at hrec
    unfold intLt
    rw [hrec]
    exact lt_add_of_pos_right _ hpos

/-- C3 witness: the indexer conclusions instantiated at the two-frame
    example file. -/
theorem indexer_offsets_witness :
    (exIdx2.map Prod.fst).head?.getD 0 = 0 ∧
    List.Chain' offsetRecur exIdx2 ∧
    List.Chain' intLt (exIdx2.map Prod.fst) := by
  obtain ⟨h1, h2, _, _, _, h6⟩ := indexer_offsets exFile2 exIdx2 rfl (by decide)
  exact ⟨h1, h2, h6⟩

/-- C10: a successful raw block read decodes every qualifying frame as
    exactly maxidx atom rows of three 4-byte big-endian words each
    (3 * maxidx values, byte stride 4, as rawRowsOf built from
    frameWords), regardless of the detected precision flag: the
    hypothesis puts the first header in double precision and the
    decode is still the 4-byte interpretation, never an 8-byte one. -/
theorem read_always_f4 (file : ByteStream) (t : TRR) (k : Fin 3) (rows : Block)
    (_hdbl : t.headers.head?.map TRRHeader.double = some true)
    (h : readBlockRaw file t k = .ok rows) :
    rows = rawRowsOf file t k := by
  unfold readBlockRaw at h
  split at h
  · exact absurd h (by simp)
  · exact exceptMapM_ok_map _ _
      (fun pos y hy => by
        split at hy
        · rw [Except.ok.injEq] at hy
          exact hy.symm
        · exact absurd hy (by simp))
      (qualifyingStarts t k) rows h

/-- C10 witness: the raw positions read of the double-precision
    example trajectory equals its 4-byte interpretation. -/
theorem read_always_f4_witness : exRowsD = rawRowsOf exFileD exTD 0 :=
  read_always_f4 exFileD exTD 0 exRowsD rfl rfl

/-- Memoization of the positions accessor: a successful first call
    fixes the cache, so a repeat call returns the same block and the
    unchanged state. -/
theorem positionsAcc_memo (s s1 : TRRRun) (v : Block)
    (h : positionsAcc s = .ok (v, s1)) : positionsAcc s1 = .ok (v, s1) := by
  unfold positionsAcc at h ⊢
  cases hc : s.posCache with
  | some v0 =>
    rw [hc] at h
    rw [Except.ok.injEq, Prod.mk.injEq] at h
    obtain ⟨hv, hs⟩ := h
    subst hv
    rw [← hs, hc]
  | none =>
    rw [hc] at h
    cases hr : readBlock s.file s.t 0 with
    | error e => rw [hr] at h; exact absurd h (by simp)
    | ok v0 =>
      rw [hr] at h
      rw [Except.ok.injEq, Prod.mk.injEq] at h
      obtain ⟨hv, hs⟩ := h
      subst hv
      subst hs
      rfl

/-- Memoization of the velocities accessor. -/
theorem velocitiesAcc_memo (s s1 : TRRRun) (v : Block)
    (h : velocitiesAcc s = .ok (v, s1)) : velocitiesAcc s1 = .ok (v, s1) := by
  unfold velocitiesAcc at h ⊢
  cases hc : s.velCache with
  | some v0 =>
    rw [hc] at h
    rw [Except.ok.injEq, Prod.mk.injEq] at h
    obtain ⟨hv, hs⟩ := h
    subst hv
    rw [← hs, hc]
  | none =>
    rw [hc] at h
    cases hr : readBlock s.file s.t 1 with
    | error e => rw [hr] at h; exact absurd h (by simp)
    | ok v0 =>
      rw [hr] at h
      rw [Except.ok.injEq, Prod.mk.injEq] at h
      obtain ⟨hv, hs⟩ := h
      subst hv
      subst hs
      rfl

/-- Memoization of the forces accessor. -/
theorem forcesAcc_memo (s s1 : TRRRun) (v : Block)
    (h : forcesAcc s = .ok (v, s1)) : forcesAcc s1 = .ok (v, s1) := by
  unfold forcesAcc at h ⊢
  cases hc : s.frcCache with
  | some v0 =>
    rw [hc] at h
    rw [Except.ok.injEq, Prod.mk.injEq] at h
    obtain ⟨hv, hs⟩ := h
    subst hv
    rw [← hs, hc]
  | none =>
    rw [hc] at h
    cases hr : readBlock s.file s.t 2 with
    | error e => rw [hr] at h; exact absurd h (by simp)
    | ok v0 =>
      rw [hr] at h
      rw [Except.ok.injEq, Prod.mk.injEq] at h
      obtain ⟨hv, hs⟩ := h
      subst hv
      subst hs
      rfl

/-- C8: each of the three block accessors computes its array at most
    once: when a first call on state s returns the block v with state
    s1, a second call on s1 returns the same block v and the identical
    state s1, so the file-read counter does not change and no part of
    the file is read again. -/
theorem accessors_memoize (k : Fin 3) (s s1 : TRRRun) (v : Block)
    (h : accessor k s = .ok (v, s1)) :
    accessor k s1 = .ok (v, s1) ∧
    (accessor k s1).map (fun p => p.2.readCount) = .ok s1.readCount := by
  have hsame : accessor k s1 = .ok (v, s1) := by
    match k with
    | 0 => exact positionsAcc_memo s s1 v h
    | 1 => exact velocitiesAcc_memo s s1 v h
    | 2 => exact forcesAcc_memo s s1 v h
  refine ⟨hsame, ?_⟩
  rw [hsame]
  rfl

/-- C8 witness: the second positions access after a cold first access
    on the example run returns the same block and identical state. -/
theorem accessors_memoize_witness :
    accessor 0 exPos1.2 = .ok (exPos1.1, exPos1.2) :=
  (accessors_memoize 0 exRun5 exPos1.2 exPos1.1 rfl).1

/-- C4 counterexample: in the two-frame example file the second
    frame's velocity-block start is computed from that frame's own
    positions size (48 bytes), giving 336, while the claimed
    frame-0-only rule (frame offset + header size + positions size at
    frame 0, 168 + 120 + 24) gives 312. -/
theorem block_starts_counterexample :
    (mkTRR exFile2 defaultSel).map
        (fun t => ((t.starts 1).getD 1 0,
                   t.frames.getD 1 0 + hsize0 t + (t.sizes 0).getD 0 0)) =
      .ok (336, 312) ∧ (336 : Int) ≠ 312 :=
  ⟨rfl, by decide⟩

/-- C4 (amended): for every constructed trajectory and every frame f,
    block 0 starts at the frame offset plus the FIRST frame's header
    size; block 1 starts at that plus the size of block 0 at frame f
    itself; block 2 starts at the block-1 start plus the size of
    block 1 at frame f itself.  Only the header size comes from frame
    0; the block sizes in the offset arithmetic are per frame. -/
theorem block_starts_per_frame (file : ByteStream) (sel : Selection) (t : TRR) (f : Nat)
    (hmk : mkTRR file sel = .ok t) (hf : f < t.frames.length) :
    (t.starts 0).getD f 0 = t.frames.getD f 0 + hsize0 t ∧
    (t.starts 1).getD f 0 = (t.starts 0).getD f 0 + (t.sizes 0).getD f 0 ∧
    (t.starts 2).getD f 0 = (t.starts 1).getD f 0 + (t.sizes 1).getD f 0 := by
  obtain ⟨idx, h0, hs, hloop, hcons, hframes, hheaders, hsizes, hstarts, hhave, hnat,
    hsel, hres⟩ := mkTRR_fields file sel t hmk
  have hh0 : hsize0 t = (h0.hsize : Int) := by
    simp [hsize0, hheaders, hcons]
  have hlenfr : f < (idx.map Prod.fst).length := by
    rw [hframes] at hf
    exact hf
  have hlenidx : f < idx.length := by simpa using hlenfr
  have hlenbase : f < ((idx.map Prod.fst).map fun p => p + (h0.hsize : Int)).length := by
    simpa using hlenfr
  have hlens0 : f < (sizesOf (idx.map Prod.snd) 0).length := by
    simp [sizesOf]
    exact hlenidx
  have hlens1 : f < (sizesOf (idx.map Prod.snd) 1).length := by
    simp [sizesOf]
    exact hlenidx
  have hlenzip : f < (List.zipWith (fun a b => a + b)
      ((idx.map Prod.fst).map fun p => p + (h0.hsize : Int))
      (sizesOf (idx.map Prod.snd) 0)).length := by
    rw [List.length_zipWith]
    omega
  have hs0 : startsOf (idx.map Prod.fst) (idx.map Prod.snd) h0.hsize 0 =
      (idx.map Prod.fst).map fun p => p + (h0.hsize : Int) := rfl
  have hs1 : startsOf (idx.map Prod.fst) (idx.map Prod.snd) h0.hsize 1 =
      List.zipWith (fun a b => a + b)
        ((idx.map Prod.fst).map fun p => p + (h0.hsize : Int))
        (sizesOf (idx.map Prod.snd) 0) := rfl
  have hs2 : startsOf (idx.map Prod.fst) (idx.map Prod.snd) h0.hsize 2 =
      List.zipWith (fun a b => a + b)
        (List.zipWith (fun a b => a + b)
          ((idx.map Prod.fst).map fun p => p + (h0.hsize : Int))
          (sizesOf (idx.map Prod.snd) 0))
        (sizesOf (idx.map Prod.snd) 1) := rfl
  refine ⟨?_, ?_, ?_⟩
  · rw [hstarts, hs0, getD_map_shift (h0.hsize : Int) (idx.map Prod.fst) f hlenfr,
      hframes, hh0]
  · rw [hstarts, hs1, hs0, hsizes,
      getD_zipWith_add ((idx.map Prod.fst).map fun p => p + (h0.hsize : Int))
        (sizesOf (idx.map Prod.snd) 0) f hlenbase hlens0]
  · rw [hstarts, hs2, hs1, hsizes,
      getD_zipWith_add (List.zipWith (fun a b => a + b)
          ((idx.map Prod.fst).map fun p => p + (h0.hsize : Int))
          (sizesOf (idx.map Prod.snd) 0))
        (sizesOf (idx.map Prod.snd) 1) f hlenzip hlens1]

/-- C4 witness: the per-frame start equations at frame 1 of the
    two-frame example trajectory. -/
theorem block_starts_per_frame_witness :
    (exT2.starts 0).getD 1 0 = exT2.frames.getD 1 0 + hsize0 exT2 ∧
    (exT2.starts 1).getD 1 0 = (exT2.starts 0).getD 1 0 + (exT2.sizes 0).getD 1 0 ∧
    (exT2.starts 2).getD 1 0 = (exT2.starts 1).getD 1 0 + (exT2.sizes 1).getD 1 0 :=
  block_starts_per_frame exFile2 defaultSel exT2 1 rfl (by decide)

/-- C6 counterexample: the integer-array selection [7] on the
    five-atom example file resolves to max_selected_index 8, violating
    the claimed bound max_selected_index <= atom_count. -/
theorem selection_invariant_counterexample :
    (mkTRR exFile5 (Selection.intArray [7])).map
        (fun t => decide (t.maxidx ≤ t.natoms)) = .ok false := rfl

/-- C6 (amended): for integer and slice selections the resolved
    max_selected_index is at most the atom count, and for an integer
    selection k with 0 <= k <= atom count every frame row of a
    successful block read has atom-axis length k, the cardinality of
    the first-k-atoms selection.  (List and array selections obey no
    such bound, and a boolean mask shorter or longer than the read
    atom range makes the final indexing fail.) -/
theorem selection_invariant_int_slice (file : ByteStream) (k : Int) (stt stp : Option Int)
    (blk : Fin 3) (t tS : TRR) (rows : Block)
    (hmk : mkTRR file (Selection.int k) = .ok t)
    (hmkS : mkTRR file (Selection.slice stt stp) = .ok tS)
    (hk0 : 0 ≤ k) (hkn : k ≤ t.natoms)
    (hro : readBlock file t blk = .ok rows) :
    t.maxidx ≤ t.natoms ∧ tS.maxidx ≤ tS.natoms ∧ rows.all (rowLenIs k) = true := by
  obtain ⟨idx, h0, hs, hloop, hcons, hframes, hheaders, hsizes, hstarts, hhave, hnat,
    hsel, hres⟩ := mkTRR_fields file (Selection.int k) t hmk
  obtain ⟨idxS, h0S, hsS, _, _, _, _, _, _, _, hnatS, _, hresS⟩ :=
    mkTRR_fields file (Selection.slice stt stp) tS hmkS
  have hmax : t.maxidx = min k t.natoms := by
    rw [hnat]
    have hr2 : resolveMaxIdx h0.natoms (Selection.int k) = .ok (min k h0.natoms) := rfl
    rw [hr2, Except.ok.injEq] at hres
    exact hres.symm
  have hmaxS : tS.maxidx ≤ tS.natoms := by
    rw [hnatS]
    cases stp with
    | none =>
      have hr2 : resolveMaxIdx h0S.natoms (Selection.slice stt none) = .ok h0S.natoms := rfl
      rw [hr2, Except.ok.injEq] at hresS
      rw [← hresS]
    | some st =>
      have hr2 : resolveMaxIdx h0S.natoms (Selection.slice stt (some st)) =
          .ok (min st h0S.natoms) := rfl
      rw [hr2, Except.ok.injEq] at hresS
      rw [← hresS]
      exact min_le_right _ _
  refine ⟨by rw [hmax]; exact min_le_right _ _, hmaxS, ?_⟩
  have hmk2 : t.maxidx = k := by
    rw [hmax]
    exact min_eq_left hkn
  have hsel2 : t.selection = Selection.slice (some 0) (some k) := hsel
  unfold readBlock at hro
  cases hraw : readBlockRaw file t blk with
  | error e => rw [hraw] at hro; exact absurd hro (by simp)
  | ok raws =>
    rw [hraw] at hro
    have hrows : rows = raws.map (fun row => pySliceList (some 0) (some k) row) := by
      refine exceptMapM_ok_map (applySelAxis t.selection) _ ?_ raws rows hro
      intro row y hy
      rw [hsel2] at hy
      simp only [applySelAxis] at hy
      rw [Except.ok.injEq] at hy
      exact hy.symm
    have hraws : raws = (qualifyingStarts t blk).map
        (fun pos => frameWords file pos.toNat t.maxidx.toNat) := by
      unfold readBlockRaw at hraw
      split at hraw
      · exact absurd hraw (by simp)
      · exact exceptMapM_ok_map _ _ (fun pos y hy => by
          split at hy
          · rw [Except.ok.injEq] at hy
            exact hy.symm
          · exact absurd hy (by simp)) _ _ hraw
    rw [List.all_eq_true]
    intro r hr
    rw [hrows] at hr
    obtain ⟨raw, hrawmem, hrq⟩ := List.mem_map.mp hr
    rw [hraws] at hrawmem
    obtain ⟨pos, _, hpq⟩ := List.mem_map.mp hrawmem
    have hrawlen : raw.length = k.toNat := by
      rw [← hpq, frameWords_length, hmk2]
    simp only [rowLenIs]
    rw [← hrq]
    exact beq_iff_eq.mpr (pySliceList_zero_stop_length k hk0 raw hrawlen)

/-- C6 witness: the amended invariant at the example file with the
    integer selection 2 and the default slice selection. -/
theorem selection_invariant_int_slice_witness :
    exT5int2.maxidx ≤ exT5int2.natoms ∧ exT5.maxidx ≤ exT5.natoms ∧
    exRows5.all (rowLenIs 2) = true :=
  selection_invariant_int_slice exFile5 2 none none 0 exT5int2 exT5 exRows5 rfl rfl
    (by decide) (by decide) rfl
